import Mathlib

/-!
Shallow embedding of the TerraStore package-catalog engine
(`src/database.rs`, types from `src/package.rs`).

Modelling conventions:
- Rust `String`/`&str` values are modelled as `List Char`; byte offsets into
  the arena are modelled as code-point offsets (exact for the ASCII package
  names the engine handles).
- `bincode` default serialization (fixed-width little-endian integers,
  `u64` length prefixes, `u32` enum variant tags) is modelled over
  `List Nat`, one `Nat` per byte / code point.
- Filesystem state is an `Option (List Nat)`: `none` is an absent or
  unreadable cache file, `some bytes` its contents.
- Wall-clock timing (`load_time_ms`) is not modelled and is fixed to `0`.
-/

namespace TerraStore

/-- `PackageSource` from `src/package.rs`: `Official` then `Aur`
(declaration order fixes the serde variant tags 0 and 1). -/
inductive PackageSource where
  | Official
  | Aur
deriving DecidableEq, Repr

/-- `PackageView` from `src/database.rs`: byte offsets into the arena plus a
source tag. -/
structure PackageView where
  name_start : Nat
  name_end : Nat
  source : PackageSource
deriving DecidableEq, Repr

/-- `PackageView::name`: the slice `&arena[name_start..name_end]`.
Rust slicing panics out of range; the model clamps, and the in-range
invariant is tracked separately (`viewWithin`). -/
def PackageView.name (v : PackageView) (arena : List Char) : List Char :=
  (arena.take v.name_end).drop v.name_start

/-- `DatabaseStats` from `src/database.rs`. -/
structure DatabaseStats where
  official_count : Nat
  aur_count : Nat
  arena_bytes : Nat
  load_time_ms : Nat
  was_cached : Bool
deriving DecidableEq, Repr

/-- `PackageDatabase` from `src/database.rs`: arena, index of views, stats. -/
structure PackageDatabase where
  arena : List Char
  packages : List PackageView
  stats : DatabaseStats
deriving DecidableEq, Repr

/-- The view invariant stated in the spec: offsets in range and the resolved
slice free of the delimiter byte `'\n'`. -/
def viewWithin (arena : List Char) (v : PackageView) : Prop :=
  v.name_start ≤ v.name_end ∧ v.name_end ≤ arena.length ∧ '\n' ∉ v.name arena

instance (arena : List Char) (v : PackageView) : Decidable (viewWithin arena v) := by
  unfold viewWithin; infer_instance

/-! ### Search (`PackageDatabase::search`) -/

/-- Model of Rust `str::to_lowercase` (per-character lowering; exact on
ASCII). -/
def toLowerCh (s : List Char) : List Char :=
  s.map Char.toLower

/-- Does `hay` begin with `needle`? (helper for substring containment). -/
def startsWithCh : List Char → List Char → Bool
  | _, [] => true
  | [], _ :: _ => false
  | a :: as, b :: bs => a == b && startsWithCh as bs

/-- Model of Rust `str::contains` (substring containment). -/
def containsCh : List Char → List Char → Bool
  | [], needle => needle.isEmpty
  | a :: t, needle => startsWithCh (a :: t) needle || containsCh t needle

/-- The `continue` test of the search loop: skip a view whose source fails
the filter. -/
def sourceSkip (sourceFilter : Option PackageSource) (s : PackageSource) : Bool :=
  match sourceFilter with
  | some f => if s = f then false else true
  | none => false

/-- The `for (idx, pkg)` loop of `PackageDatabase::search`: source filter,
then case-insensitive substring test, pushing `idx` and breaking once
`results.len() >= limit`. -/
def searchLoop (arena queryLower : List Char) (sourceFilter : Option PackageSource)
    (limit : Nat) : List PackageView → Nat → List Nat → List Nat
  | [], _, results => results
  | pkg :: rest, idx, results =>
    if sourceSkip sourceFilter pkg.source then
      searchLoop arena queryLower sourceFilter limit rest (idx + 1) results
    else if containsCh (toLowerCh (pkg.name arena)) queryLower then
      let results2 := results ++ [idx]
      if limit ≤ results2.length then results2
      else searchLoop arena queryLower sourceFilter limit rest (idx + 1) results2
    else
      searchLoop arena queryLower sourceFilter limit rest (idx + 1) results

/-- `PackageDatabase::search`: early return on the empty query, otherwise the
scan loop starting from index 0 with empty results. -/
def PackageDatabase.search (db : PackageDatabase) (query : List Char)
    (sourceFilter : Option PackageSource) (limit : Nat) : List Nat :=
  if query.isEmpty then []
  else searchLoop db.arena (toLowerCh query) sourceFilter limit db.packages 0 []

/-- `PackageDatabase::len`. -/
def PackageDatabase.len (db : PackageDatabase) : Nat :=
  db.packages.length

/-- `PackageDatabase::get_name`: `packages.get(idx).map(|p| p.name(&arena))`. -/
def PackageDatabase.get_name (db : PackageDatabase) (idx : Nat) : Option (List Char) :=
  (db.packages.get? idx).map (fun p => p.name db.arena)

/-- `PackageDatabase::get_source`: `packages.get(idx).map(|p| p.source)`. -/
def PackageDatabase.get_source (db : PackageDatabase) (idx : Nat) : Option PackageSource :=
  (db.packages.get? idx).map (fun p => p.source)

/-- `PackageView::name` with Rust's slice bounds check made explicit:
`&arena[name_start..name_end]` panics when the range is invalid, modelled
here as `none`; `some` carries the resolved slice. -/
def PackageView.nameChecked (v : PackageView) (arena : List Char) : Option (List Char) :=
  if v.name_start ≤ v.name_end ∧ v.name_end ≤ arena.length then some (v.name arena)
  else none

/-- `PackageDatabase::get_name` with the slice panic explicit: the outer
`Option` is `none` exactly when the call panics; `some none` is the miss for
an index past the end (`Vec::get`), `some (some s)` a resolved name. -/
def PackageDatabase.get_name_checked (db : PackageDatabase) (idx : Nat) :
    Option (Option (List Char)) :=
  match db.packages.get? idx with
  | none => some none
  | some p => (p.nameChecked db.arena).map some

/-! ### Spec-side search description (for the refinement claim C1)

Written from the spec's words: filter first, then the case-insensitive
substring test on the resolved name; the result is the first `limit`
matching indices in insertion order. -/

/-- Spec-side predicate: the view matches the source filter (when present)
and its lower-cased resolved name contains the lower-cased query. -/
def viewMatches (arena query : List Char) (sourceFilter : Option PackageSource)
    (v : PackageView) : Bool :=
  (match sourceFilter with
   | some f => decide (v.source = f)
   | none => true)
  && containsCh (toLowerCh (v.name arena)) (toLowerCh query)

/-- Spec-side search result: the first `limit` matching indices in view
insertion order, no reordering. -/
def specSearch (db : PackageDatabase) (query : List Char)
    (sourceFilter : Option PackageSource) (limit : Nat) : List Nat :=
  (((db.packages.enum).filter
      (fun p => viewMatches db.arena query sourceFilter p.2)).map Prod.fst).take limit

/-! ### Binary cache model (`bincode` default format over `List Nat` bytes) -/

/-- `CACHE_VERSION` from `src/database.rs`. -/
def CACHE_VERSION : Nat := 1

/-- Little-endian fixed 4-byte encoding of a `u32`. -/
def u32le (n : Nat) : List Nat :=
  [n % 256, n / 256 % 256, n / 65536 % 256, n / 16777216 % 256]

/-- Little-endian fixed 8-byte encoding of a `u64` (bincode encodes `usize`
as `u64`). -/
def u64le (n : Nat) : List Nat :=
  [n % 256, n / 256 % 256, n / 65536 % 256, n / 16777216 % 256,
   n / 4294967296 % 256, n / 1099511627776 % 256,
   n / 281474976710656 % 256, n / 72057594037927936 % 256]

/-- Read a little-endian `u32`; fails on fewer than 4 bytes. -/
def parseU32 : List Nat → Option (Nat × List Nat)
  | b0 :: b1 :: b2 :: b3 :: rest =>
    some (b0 % 256 + 256 * (b1 % 256) + 65536 * (b2 % 256) + 16777216 * (b3 % 256), rest)
  | _ => none

/-- Read a little-endian `u64`; fails on fewer than 8 bytes. -/
def parseU64 : List Nat → Option (Nat × List Nat)
  | b0 :: b1 :: b2 :: b3 :: b4 :: b5 :: b6 :: b7 :: rest =>
    some (b0 % 256 + 256 * (b1 % 256) + 65536 * (b2 % 256) + 16777216 * (b3 % 256)
      + 4294967296 * (b4 % 256) + 1099511627776 * (b5 % 256)
      + 281474976710656 * (b6 % 256) + 72057594037927936 * (b7 % 256), rest)
  | _ => none

/-- `CacheHeader` from `src/database.rs`. -/
structure CacheHeader where
  version : Nat
  official_count : Nat
  aur_count : Nat
  arena_len : Nat
  timestamp : Nat
deriving DecidableEq, Repr

/-- bincode encoding of `CacheHeader`, fields in declaration order. -/
def encodeHeader (h : CacheHeader) : List Nat :=
  u32le h.version ++ u64le h.official_count ++ u64le h.aur_count
    ++ u64le h.arena_len ++ u64le h.timestamp

/-- bincode decoding of `CacheHeader`. -/
def parseHeader (bs : List Nat) : Option (CacheHeader × List Nat) := do
  let (v, bs) ← parseU32 bs
  let (oc, bs) ← parseU64 bs
  let (ac, bs) ← parseU64 bs
  let (al, bs) ← parseU64 bs
  let (ts, bs) ← parseU64 bs
  some (⟨v, oc, ac, al, ts⟩, bs)

/-- bincode encoding of a byte sequence (`&[u8]`): `u64` length prefix then
the raw bytes. -/
def encodeByteSeq (bs : List Nat) : List Nat :=
  u64le bs.length ++ bs

/-- bincode decoding of a byte sequence; fails when fewer bytes remain than
the length prefix promises (truncation). -/
def parseByteSeq (input : List Nat) : Option (List Nat × List Nat) := do
  let (n, rest) ← parseU64 input
  if n ≤ rest.length then some (rest.take n, rest.drop n) else none

/-- serde variant tag of `PackageSource` (`u32` in bincode). -/
def sourceTag : PackageSource → Nat
  | .Official => 0
  | .Aur => 1

/-- Decode a `PackageSource` variant tag. -/
def parseSource (bs : List Nat) : Option (PackageSource × List Nat) := do
  let (t, rest) ← parseU32 bs
  match t with
  | 0 => some (.Official, rest)
  | 1 => some (.Aur, rest)
  | _ => none

/-- bincode encoding of one `PackageView`, fields in declaration order. -/
def encodeView (v : PackageView) : List Nat :=
  u64le v.name_start ++ u64le v.name_end ++ u32le (sourceTag v.source)

/-- bincode encoding of `Vec<PackageView>`: `u64` count then the records. -/
def encodeViews (vs : List PackageView) : List Nat :=
  u64le vs.length ++ (vs.map encodeView).flatten

/-- Decode exactly `n` `PackageView` records. -/
def parseViewList : Nat → List Nat → Option (List PackageView × List Nat)
  | 0, rest => some ([], rest)
  | n + 1, rest => do
    let (s, rest) ← parseU64 rest
    let (e, rest) ← parseU64 rest
    let (src, rest) ← parseSource rest
    let (vs, rest) ← parseViewList n rest
    some (⟨s, e, src⟩ :: vs, rest)

/-- bincode decoding of `Vec<PackageView>`. -/
def parseViews (bs : List Nat) : Option (List PackageView × List Nat) := do
  let (n, rest) ← parseU64 bs
  parseViewList n rest

/-- `PackageDatabase::save_to_cache`: writes `[header][arena bytes][views]`
in that order. The written cache file is returned; I/O errors and the
missing-cache-path case (where nothing is written) are outside the model. -/
def save_to_cache (db : PackageDatabase) (timestamp : Nat) : List Nat :=
  encodeHeader ⟨CACHE_VERSION, db.stats.official_count, db.stats.aur_count,
      db.arena.length, timestamp⟩
    ++ encodeByteSeq (db.arena.map Char.toNat)
    ++ encodeViews db.packages

/-- `PackageDatabase::load_from_cache`: `none` for an absent/unreadable file,
then header decode, version check, arena decode (`String::from_utf8_lossy`
modelled as per-code-point decoding), view decode; every decode failure is a
miss. `load_time_ms` (wall clock) is modelled as 0. -/
def load_from_cache (file : Option (List Nat)) : Option PackageDatabase :=
  match file with
  | none => none
  | some bytes => do
    let (header, rest) ← parseHeader bytes
    if header.version ≠ CACHE_VERSION then none
    else do
      let (arenaBytes, rest2) ← parseByteSeq rest
      let arena := arenaBytes.map Char.ofNat
      let (packages, _) ← parseViews rest2
      some { arena := arena, packages := packages,
             stats := { official_count := header.official_count,
                        aur_count := header.aur_count,
                        arena_bytes := arena.length,
                        load_time_ms := 0,
                        was_cached := true } }

/-- `PackageDatabase::invalidate_cache` acting on the modelled filesystem
state: removes the file when present (removal succeeds in the model), is an
`Ok` no-op when absent. Returns the new state and whether the call
returned `Ok`. -/
def invalidate_cache (file : Option (List Nat)) : Option (List Nat) × Bool :=
  match file with
  | some _ => (none, true)
  | none => (none, true)

/-! ### Fresh build (`PackageDatabase::build_fresh`) -/

/-- Outcome of running an external command: exit status and stdout. -/
structure CmdOut where
  success : Bool
  stdout : List Char
deriving DecidableEq, Repr

/-- Split on `'\n'`, keeping every segment (model of `str::split`). -/
def splitOnNl : List Char → List (List Char)
  | [] => [[]]
  | c :: rest =>
    let segs := splitOnNl rest
    if c = '\n' then [] :: segs
    else
      match segs with
      | [] => [[c]]
      | s :: ss => (c :: s) :: ss

/-- Strip one trailing `'\r'` (part of Rust `str::lines`). -/
def stripTrailingCr (s : List Char) : List Char :=
  match s.getLast? with
  | some '\r' => s.dropLast
  | _ => s

/-- Model of Rust `str::lines`: split on `'\n'`, drop a final empty segment,
strip one trailing `'\r'` per line. -/
def rustLines (s : List Char) : List (List Char) :=
  let segs := splitOnNl s
  let segs := if segs.getLast? = some [] then segs.dropLast else segs
  segs.map stripTrailingCr

/-- The per-source loop of `build_fresh`: for each non-empty line, record
`start`, append the line, record `end`, append the delimiter, push a view,
bump the count. -/
def buildPart (src : PackageSource) :
    List (List Char) → List Char × List PackageView × Nat →
    List Char × List PackageView × Nat
  | [], st => st
  | line :: rest, (arena, pkgs, cnt) =>
    if line.isEmpty then buildPart src rest (arena, pkgs, cnt)
    else
      let s := arena.length
      let arena2 := arena ++ line
      let e := arena2.length
      let arena3 := arena2 ++ ['\n']
      buildPart src rest (arena3, pkgs ++ [⟨s, e, src⟩], cnt + 1)

/-- Whether a helper probe (`paru --version` / `yay --version`) succeeded. -/
def probeOk (c : Option CmdOut) : Bool :=
  match c with
  | some o => o.success
  | none => false

/-- `PackageDatabase::build_fresh`, parametrised by the outcomes of the
external commands: `pacman -Slq`, the two helper probes, and the chosen
helper's `-Slq --aur` run. Note the source sets `arena_bytes: 0`
("Will be set after"). -/
def build_fresh (pacman paru yay aurRun : Option CmdOut) : PackageDatabase :=
  let st0 : List Char × List PackageView × Nat := ([], [], 0)
  let st1 :=
    match pacman with
    | some o => if o.success then buildPart .Official (rustLines o.stdout) st0 else st0
    | none => st0
  let helperAvailable := probeOk paru || probeOk yay
  let st2 :=
    if helperAvailable then
      match aurRun with
      | some o =>
        if o.success then buildPart .Aur (rustLines o.stdout) (st1.1, st1.2.1, 0)
        else (st1.1, st1.2.1, 0)
      | none => (st1.1, st1.2.1, 0)
    else (st1.1, st1.2.1, 0)
  { arena := st2.1, packages := st2.2.1,
    stats := { official_count := st1.2.2, aur_count := st2.2.2,
               arena_bytes := 0, load_time_ms := 0, was_cached := false } }

/-- `PackageDatabase::load_or_build` acting on the modelled filesystem:
cache hit returns the loaded store and leaves the file alone; a miss builds
fresh, marks `was_cached := false`, and best-effort saves. Returns the
store and the resulting cache-file state. -/
def load_or_build (file : Option (List Nat)) (pacman paru yay aurRun : Option CmdOut)
    (timestamp : Nat) : PackageDatabase × Option (List Nat) :=
  match load_from_cache file with
  | some db => (db, file)
  | none =>
    let db := build_fresh pacman paru yay aurRun
    let db := { db with stats := { db.stats with was_cached := false } }
    (db, some (save_to_cache db timestamp))

/-! ### Concrete sample stores -/

/-- The catalog of the repository's `test_search` unit test (also the spec's
§8 scenario): official names neofetch, htop, firefox, neomutt, neovim. -/
def sampleDb : PackageDatabase :=
  { arena := ("neofetch\nhtop\nfirefox\nneomutt\nneovim\n").toList,
    packages := [⟨0, 8, .Official⟩, ⟨9, 13, .Official⟩, ⟨14, 21, .Official⟩,
                 ⟨22, 29, .Official⟩, ⟨30, 36, .Official⟩],
    stats := ⟨5, 0, 0, 0, false⟩ }

/-- A store with a single one-character official name, for limit edge cases. -/
def tinyDb : PackageDatabase :=
  { arena := ['a', '\n'], packages := [⟨0, 1, .Official⟩], stats := ⟨1, 0, 0, 0, false⟩ }

/-- A syntactically valid cache file whose single view points past the end of
its two-byte arena. -/
def badCacheBytes : List Nat :=
  encodeHeader ⟨1, 0, 0, 2, 0⟩ ++ encodeByteSeq [97, 98] ++ encodeViews [⟨0, 5, .Official⟩]

/-- The store `load_from_cache` produces from `badCacheBytes`: its single
view overruns the two-byte arena. -/
def badLoadedDb : PackageDatabase :=
  { arena := ['a', 'b'], packages := [⟨0, 5, .Official⟩], stats := ⟨0, 0, 2, 0, true⟩ }

/-- `pacman -Slq` succeeding with one name. -/
def pacmanOneName : Option CmdOut := some ⟨true, ['a', '\n']⟩

/-- `pacman -Slq` failing (non-zero exit status). -/
def pacmanFailing : Option CmdOut := some ⟨false, []⟩

/-- A successful `paru --version` probe. -/
def paruProbeOk : Option CmdOut := some ⟨true, []⟩

/-- The AUR helper returning a single name `foo`. -/
def aurOneName : Option CmdOut := some ⟨true, ['f', 'o', 'o', '\n']⟩

/-! ### Search proofs -/

/-- `viewMatches` restated through the loop's own tests. -/
lemma viewMatches_eq (arena q : List Char) (f : Option PackageSource) (v : PackageView) :
    viewMatches arena q f v =
      (!sourceSkip f v.source && containsCh (toLowerCh (v.name arena)) (toLowerCh q)) := by
  cases f with
  | none => simp [viewMatches, sourceSkip]
  | some s =>
    by_cases h : v.source = s <;> simp [viewMatches, sourceSkip, h]

/-- The scan loop collects exactly the first `limit - acc.length` matching
indices past the accumulator, provided the accumulator is not yet full. -/
lemma searchLoop_eq (arena qL : List Char) (f : Option PackageSource) (limit : Nat)
    (ps : List PackageView) :
    ∀ (idx : Nat) (acc : List Nat), acc.length < limit →
      searchLoop arena qL f limit ps idx acc =
        acc ++ (((List.enumFrom idx ps).filter
          (fun p => !sourceSkip f p.2.source
              && containsCh (toLowerCh (p.2.name arena)) qL)).map Prod.fst).take
            (limit - acc.length) := by
  induction ps with
  | nil => intro idx acc _; simp [searchLoop]
  | cons pkg rest ih =>
    intro idx acc hacc
    rw [List.enumFrom_cons]
    by_cases hskip : sourceSkip f pkg.source
    · rw [searchLoop, if_pos hskip, ih (idx + 1) acc hacc]
      simp [List.filter_cons, hskip]
    · by_cases hc : containsCh (toLowerCh (pkg.name arena)) qL
      · by_cases hfull : limit ≤ (acc ++ [idx]).length
        · have hlim : limit = acc.length + 1 := by
            simp only [List.length_append, List.length_singleton] at hfull; omega
          rw [searchLoop, if_neg hskip, if_pos hc]
          simp only [if_pos hfull, List.filter_cons, hskip, hc, Bool.not_false,
            Bool.true_and, List.map_cons, hlim]
          simp
        · have hacc2 : (acc ++ [idx]).length < limit := by
            simp only [List.length_append, List.length_singleton] at hfull ⊢; omega
          rw [searchLoop, if_neg hskip, if_pos hc]
          simp only [if_neg hfull, ih (idx + 1) (acc ++ [idx]) hacc2,
            List.filter_cons, hskip, hc, Bool.not_false, Bool.true_and, if_true,
            List.map_cons]
          have htake : limit - acc.length = (limit - (acc ++ [idx]).length) + 1 := by
            simp only [List.length_append, List.length_singleton]; omega
          rw [htake, List.take_succ_cons, List.append_assoc]
          rfl
      · rw [searchLoop, if_neg hskip, if_neg hc, ih (idx + 1) acc hacc]
        simp [List.filter_cons, hskip, hc]

/-- For a nonempty query and positive limit, `search` equals the spec-side
description. -/
lemma search_eq_specSearch (db : PackageDatabase) (q : List Char)
    (f : Option PackageSource) (limit : Nat) (hq : q ≠ []) (hl : 1 ≤ limit) :
    db.search q f limit = specSearch db q f limit := by
  unfold PackageDatabase.search specSearch
  rw [if_neg (by simpa [List.isEmpty_iff] using hq)]
  rw [searchLoop_eq db.arena (toLowerCh q) f limit db.packages 0 [] (by simpa using hl)]
  simp only [List.enum_eq_enumFrom, viewMatches_eq, List.nil_append,
    List.length_nil, Nat.sub_zero]

/-- Indices in the spec-side result resolve to matching views. -/
lemma specSearch_mem (db : PackageDatabase) (q : List Char)
    (f : Option PackageSource) (limit : Nat) (i : Nat)
    (hi : i ∈ specSearch db q f limit) :
    ∃ v, db.packages.get? i = some v ∧ viewMatches db.arena q f v = true := by
  unfold specSearch at hi
  have hi' := List.mem_of_mem_take hi
  obtain ⟨⟨j, v⟩, hmem, hj⟩ := List.mem_map.mp hi'
  obtain ⟨hpair, hmatch⟩ := List.mem_filter.mp hmem
  rw [List.enum_eq_enumFrom] at hpair
  obtain ⟨-, hlt, hv⟩ := List.mem_enumFrom hpair
  subst hj
  refine ⟨v, ?_, hmatch⟩
  have hlt' : j < db.packages.length := by simpa using hlt
  rw [List.get?_eq_get hlt']
  simp only [hv]
  simp [List.get_eq_getElem]

/-- C1 (amended): for every built store, every *nonempty* query, every source
filter and every limit ≥ 1, `search` returns exactly the first `limit`
matching indices in view insertion order (filter applied before the
case-insensitive substring test), and every returned index resolves to a
matching view. -/
theorem search_returns_first_limit_matches (db : PackageDatabase) (q : List Char)
    (f : Option PackageSource) (limit : Nat) (hq : q ≠ []) (hl : 1 ≤ limit) :
    db.search q f limit = specSearch db q f limit ∧
    ∀ i ∈ db.search q f limit,
      ∃ v, db.packages.get? i = some v ∧ viewMatches db.arena q f v = true := by
  refine ⟨search_eq_specSearch db q f limit hq hl, fun i hi => ?_⟩
  rw [search_eq_specSearch db q f limit hq hl] at hi
  exact specSearch_mem db q f limit i hi

/-- C1 witness: the spec's §8 scenario, query `neo`, limit 10, no filter. -/
theorem search_returns_first_limit_matches_witness :
    sampleDb.search ("neo").toList none 10 = specSearch sampleDb ("neo").toList none 10 ∧
    ∀ i ∈ sampleDb.search ("neo").toList none 10,
      ∃ v, sampleDb.packages.get? i = some v ∧
        viewMatches sampleDb.arena ("neo").toList none v = true :=
  search_returns_first_limit_matches sampleDb ("neo").toList none 10
    (by decide) (by decide)

/-- C1 counterexample: on the empty query the claim as stated fails — every
name contains the empty string, so the "first `limit` matches" are nonempty,
yet `search` returns `[]`. -/
theorem search_claim_fails_on_empty_query :
    ¬ sampleDb.search [] none 1 = specSearch sampleDb [] none 1 := by
  decide

/-- C4 (code bug): with `limit = 0` and a matching view, `search` returns one
index, because the loop pushes before comparing `results.len() >= limit`; the
claimed bound `len(search q f limit) ≤ limit` fails at this input. -/
theorem search_limit_zero_overflow :
    tinyDb.search ['a'] none 0 = [0] ∧
    ¬ (tinyDb.search ['a'] none 0).length ≤ 0 := by
  decide

/-- C8: searching with the empty query always returns the empty result,
never all entries. -/
theorem search_empty_query_returns_empty (db : PackageDatabase)
    (f : Option PackageSource) (limit : Nat) : db.search [] f limit = [] := by
  simp [PackageDatabase.search]

/-- C10 counterexample: on the store that the code's own unvalidated cache
load produces from `badCacheBytes`, the in-range index 0 makes `get_name`
panic — `&"ab"[0..5]` is out of bounds — so the accessor is not total on
every built store: it returns neither `None` nor `Some` there. -/
theorem get_name_panic_cex :
    load_from_cache (some badCacheBytes) = some badLoadedDb ∧
    badLoadedDb.len = 1 ∧
    badLoadedDb.get_name_checked 0 = none := by
  refine ⟨by decide, by decide, by decide⟩

/-- C10 (amended): on every store whose views satisfy the invariant (in
particular every freshly built store), the accessors are total: an index
past the end yields `None` without panicking, and an in-range index yields
`Some` of the view's resolved name and source; `get_source` never panics
on any store. -/
theorem get_accessors_total_within (db : PackageDatabase) (idx : Nat)
    (hdb : ∀ v ∈ db.packages, viewWithin db.arena v) :
    (db.packages.length ≤ idx →
      db.get_name_checked idx = some none ∧ db.get_source idx = none) ∧
    ∀ h : idx < db.packages.length,
      db.get_name_checked idx = some (some ((db.packages.get ⟨idx, h⟩).name db.arena)) ∧
      db.get_source idx = some (db.packages.get ⟨idx, h⟩).source := by
  constructor
  · intro hge
    have h1 : db.packages.get? idx = none := List.get?_eq_none.mpr hge
    simp only [PackageDatabase.get_name_checked, PackageDatabase.get_source, h1,
      Option.map_none']
    exact ⟨trivial, trivial⟩
  · intro h
    have h2 : db.packages.get? idx = some (db.packages.get ⟨idx, h⟩) := List.get?_eq_get h
    have hmem : db.packages.get ⟨idx, h⟩ ∈ db.packages := List.get_mem _ _ _
    obtain ⟨hb1, hb2, -⟩ := hdb _ hmem
    simp only [PackageDatabase.get_name_checked, PackageDatabase.get_source, h2,
      Option.map_some', PackageView.nameChecked, if_pos (And.intro hb1 hb2)]
    exact ⟨trivial, trivial⟩

/-- C10 witness: on the sample store (which satisfies the invariant),
index 7 is an out-of-range miss and index 0 resolves. -/
theorem get_accessors_total_within_witness :
    (sampleDb.get_name_checked 7 = some none ∧ sampleDb.get_source 7 = none) ∧
    sampleDb.get_name_checked 0 =
      some (some ((sampleDb.packages.get ⟨0, by decide⟩).name sampleDb.arena)) :=
  ⟨(get_accessors_total_within sampleDb 7 (by decide)).1 (by decide),
   ((get_accessors_total_within sampleDb 0 (by decide)).2 (by decide)).1⟩

/-! ### Serialization round-trip -/

lemma parseU32_u32le (n : Nat) (rest : List Nat) :
    parseU32 (u32le n ++ rest) = some (n % 4294967296, rest) := by
  simp only [u32le, List.cons_append, List.nil_append, parseU32]
  congr 1
  congr 1
  omega

lemma parseU64_u64le (n : Nat) (rest : List Nat) :
    parseU64 (u64le n ++ rest) = some (n % 18446744073709551616, rest) := by
  simp only [u64le, List.cons_append, List.nil_append, parseU64]
  congr 1
  congr 1
  omega

lemma parseHeader_encodeHeader (h : CacheHeader) (rest : List Nat) :
    parseHeader (encodeHeader h ++ rest) =
      some (⟨h.version % 4294967296, h.official_count % 18446744073709551616,
             h.aur_count % 18446744073709551616, h.arena_len % 18446744073709551616,
             h.timestamp % 18446744073709551616⟩, rest) := by
  simp only [encodeHeader, List.append_assoc, parseHeader, parseU32_u32le,
    parseU64_u64le, Option.bind_eq_bind, Option.some_bind]

lemma parseByteSeq_encodeByteSeq (bs rest : List Nat)
    (hlen : bs.length < 18446744073709551616) :
    parseByteSeq (encodeByteSeq bs ++ rest) = some (bs, rest) := by
  simp only [encodeByteSeq, List.append_assoc, parseByteSeq, parseU64_u64le,
    Option.bind_eq_bind, Option.some_bind, Nat.mod_eq_of_lt hlen]
  rw [if_pos (by simp)]
  rw [List.take_left, List.drop_left]

lemma parseSource_encode (s : PackageSource) (rest : List Nat) :
    parseSource (u32le (sourceTag s) ++ rest) = some (s, rest) := by
  cases s <;>
    simp [parseSource, sourceTag, parseU32_u32le, Option.bind_eq_bind]

lemma parseViewList_encode (vs : List PackageView) (rest : List Nat)
    (hv : ∀ v ∈ vs, v.name_start < 18446744073709551616 ∧
        v.name_end < 18446744073709551616) :
    parseViewList vs.length ((vs.map encodeView).flatten ++ rest) = some (vs, rest) := by
  induction vs with
  | nil => simp [parseViewList]
  | cons v tl ih =>
    have hv0 := hv v (List.mem_cons_self v tl)
    simp only [List.map_cons, List.flatten_cons, List.length_cons, encodeView,
      List.append_assoc, parseViewList, parseU64_u64le, parseSource_encode,
      Option.bind_eq_bind, Option.some_bind, Nat.mod_eq_of_lt hv0.1,
      Nat.mod_eq_of_lt hv0.2,
      ih (fun w hw => hv w (List.mem_cons_of_mem v hw))]

lemma parseViews_encodeViews (vs : List PackageView) (rest : List Nat)
    (hn : vs.length < 18446744073709551616)
    (hv : ∀ v ∈ vs, v.name_start < 18446744073709551616 ∧
        v.name_end < 18446744073709551616) :
    parseViews (encodeViews vs ++ rest) = some (vs, rest) := by
  simp only [encodeViews, List.append_assoc, parseViews, parseU64_u64le,
    Option.bind_eq_bind, Option.some_bind, Nat.mod_eq_of_lt hn,
    parseViewList_encode vs rest hv]

lemma arena_decode_encode (arena : List Char) :
    (arena.map Char.toNat).map Char.ofNat = arena := by
  rw [List.map_map]
  have : (Char.ofNat ∘ Char.toNat) = id := funext fun c => Char.ofNat_toNat c
  rw [this, List.map_id]

/-- Core round-trip: loading the file written by `save_to_cache` reproduces
the arena, the views, the counts from the saved stats, and marks the result
as cached. -/
lemma load_save_eq (db : PackageDatabase) (ts : Nat)
    (hO : db.stats.official_count < 18446744073709551616)
    (hAc : db.stats.aur_count < 18446744073709551616)
    (hA : db.arena.length < 18446744073709551616)
    (hP : db.packages.length < 18446744073709551616)
    (hV : ∀ v ∈ db.packages, v.name_start < 18446744073709551616 ∧
        v.name_end < 18446744073709551616) :
    load_from_cache (some (save_to_cache db ts)) =
      some { arena := db.arena, packages := db.packages,
             stats := { official_count := db.stats.official_count,
                        aur_count := db.stats.aur_count,
                        arena_bytes := db.arena.length,
                        load_time_ms := 0,
                        was_cached := true } } := by
  have hA' : (db.arena.map Char.toNat).length < 18446744073709551616 := by
    simpa using hA
  simp only [load_from_cache, save_to_cache, List.append_assoc,
    parseHeader_encodeHeader, Option.bind_eq_bind, Option.some_bind,
    Nat.mod_eq_of_lt hO, Nat.mod_eq_of_lt hAc]
  rw [if_neg (by simp [CACHE_VERSION])]
  simp only [parseByteSeq_encodeByteSeq (db.arena.map Char.toNat)
      (encodeViews db.packages) hA', Option.some_bind, arena_decode_encode]
  rw [← List.append_nil (encodeViews db.packages)]
  simp only [parseViews_encodeViews db.packages [] hP hV, Option.some_bind]

/-- C2: save followed by load reproduces a store with identical counts,
identical arena, identical (name, source) pairs per index, and
`was_cached = true` (size hypotheses reflect the Rust `usize` bounds). -/
theorem save_load_roundtrip (db : PackageDatabase) (ts : Nat)
    (hO : db.stats.official_count < 18446744073709551616)
    (hAc : db.stats.aur_count < 18446744073709551616)
    (hA : db.arena.length < 18446744073709551616)
    (hP : db.packages.length < 18446744073709551616)
    (hV : ∀ v ∈ db.packages, v.name_start < 18446744073709551616 ∧
        v.name_end < 18446744073709551616) :
    ∃ db', load_from_cache (some (save_to_cache db ts)) = some db' ∧
      db'.stats.official_count = db.stats.official_count ∧
      db'.stats.aur_count = db.stats.aur_count ∧
      db'.arena = db.arena ∧
      (∀ idx, db'.get_name idx = db.get_name idx ∧
        db'.get_source idx = db.get_source idx) ∧
      db'.stats.was_cached = true := by
  refine ⟨_, load_save_eq db ts hO hAc hA hP hV, rfl, rfl, rfl, fun idx => ⟨rfl, rfl⟩, rfl⟩

/-- C2 witness: round trip of the sample store. -/
theorem save_load_roundtrip_witness :
    ∃ db', load_from_cache (some (save_to_cache sampleDb 42)) = some db' ∧
      db'.stats.official_count = sampleDb.stats.official_count ∧
      db'.stats.aur_count = sampleDb.stats.aur_count ∧
      db'.arena = sampleDb.arena ∧
      (∀ idx, db'.get_name idx = sampleDb.get_name idx ∧
        db'.get_source idx = sampleDb.get_source idx) ∧
      db'.stats.was_cached = true :=
  save_load_roundtrip sampleDb 42 (by decide) (by decide) (by decide) (by decide)
    (by decide)

/-! ### Cache-miss behaviour on absent, truncated or stale files -/

lemma parseU32_none : ∀ {bs : List Nat}, bs.length < 4 → parseU32 bs = none
  | [], _ => rfl
  | [_], _ => rfl
  | [_, _], _ => rfl
  | [_, _, _], _ => rfl
  | _ :: _ :: _ :: _ :: _, h => absurd h (by simp)

lemma parseU64_none : ∀ {bs : List Nat}, bs.length < 8 → parseU64 bs = none
  | [], _ => rfl
  | [_], _ => rfl
  | [_, _], _ => rfl
  | [_, _, _], _ => rfl
  | [_, _, _, _], _ => rfl
  | [_, _, _, _, _], _ => rfl
  | [_, _, _, _, _, _], _ => rfl
  | [_, _, _, _, _, _, _], _ => rfl
  | _ :: _ :: _ :: _ :: _ :: _ :: _ :: _ :: _, h => absurd h (by simp)

lemma parseU32_length {bs : List Nat} {v : Nat} {rest : List Nat} :
    parseU32 bs = some (v, rest) → bs.length = rest.length + 4 := by
  match bs with
  | [] => intro h; cases h
  | [_] => intro h; cases h
  | [_, _] => intro h; cases h
  | [_, _, _] => intro h; cases h
  | _ :: _ :: _ :: _ :: r =>
    intro h
    have h2 : r = rest := congrArg Prod.snd (Option.some.inj h)
    subst h2
    simp

lemma parseU64_length {bs : List Nat} {v : Nat} {rest : List Nat} :
    parseU64 bs = some (v, rest) → bs.length = rest.length + 8 := by
  match bs with
  | [] => intro h; cases h
  | [_] => intro h; cases h
  | [_, _] => intro h; cases h
  | [_, _, _] => intro h; cases h
  | [_, _, _, _] => intro h; cases h
  | [_, _, _, _, _] => intro h; cases h
  | [_, _, _, _, _, _] => intro h; cases h
  | [_, _, _, _, _, _, _] => intro h; cases h
  | _ :: _ :: _ :: _ :: _ :: _ :: _ :: _ :: r =>
    intro h
    have h2 : r = rest := congrArg Prod.snd (Option.some.inj h)
    subst h2
    simp

lemma parseSource_length {bs : List Nat} {s : PackageSource} {rest : List Nat}
    (h : parseSource bs = some (s, rest)) : bs.length = rest.length + 4 := by
  unfold parseSource at h
  cases h32 : parseU32 bs with
  | none => rw [h32] at h; cases h
  | some p =>
    obtain ⟨t, r1⟩ := p
    rw [h32] at h
    simp only [Option.bind_eq_bind, Option.some_bind] at h
    have hl := parseU32_length h32
    match t, h with
    | 0, h =>
      have h2 : r1 = rest := congrArg Prod.snd (Option.some.inj h)
      subst h2; exact hl
    | 1, h =>
      have h2 : r1 = rest := congrArg Prod.snd (Option.some.inj h)
      subst h2; exact hl

lemma parseHeader_none {bs : List Nat} (h : bs.length < 36) : parseHeader bs = none := by
  unfold parseHeader
  cases h1 : parseU32 bs with
  | none => rfl
  | some p1 =>
    obtain ⟨v, r1⟩ := p1
    have l1 := parseU32_length h1
    simp only [Option.bind_eq_bind, Option.some_bind]
    cases h2 : parseU64 r1 with
    | none => rfl
    | some p2 =>
      obtain ⟨oc, r2⟩ := p2
      have l2 := parseU64_length h2
      simp only [Option.some_bind]
      cases h3 : parseU64 r2 with
      | none => rfl
      | some p3 =>
        obtain ⟨ac, r3⟩ := p3
        have l3 := parseU64_length h3
        simp only [Option.some_bind]
        cases h4 : parseU64 r3 with
        | none => rfl
        | some p4 =>
          obtain ⟨al, r4⟩ := p4
          have l4 := parseU64_length h4
          simp only [Option.some_bind]
          rw [parseU64_none (by omega)]
          rfl

lemma parseViewList_none : ∀ (n : Nat) {bs : List Nat}, bs.length < 20 * n →
    parseViewList n bs = none := by
  intro n
  induction n with
  | zero => intro bs h; omega
  | succ m ih =>
    intro bs h
    unfold parseViewList
    cases h1 : parseU64 bs with
    | none => rfl
    | some p1 =>
      obtain ⟨s, r1⟩ := p1
      have l1 := parseU64_length h1
      simp only [Option.bind_eq_bind, Option.some_bind]
      cases h2 : parseU64 r1 with
      | none => rfl
      | some p2 =>
        obtain ⟨e, r2⟩ := p2
        have l2 := parseU64_length h2
        simp only [Option.some_bind]
        cases h3 : parseSource r2 with
        | none => rfl
        | some p3 =>
          obtain ⟨src, r3⟩ := p3
          have l3 := parseSource_length h3
          simp only [Option.some_bind]
          rw [ih (by omega)]
          rfl

lemma encodeView_length (v : PackageView) : (encodeView v).length = 20 := by
  simp [encodeView, u64le, u32le]

lemma encodeViews_flatten_length (vs : List PackageView) :
    ((vs.map encodeView).flatten).length = 20 * vs.length := by
  induction vs with
  | nil => simp
  | cons v tl ih =>
    simp only [List.map_cons, List.flatten_cons, List.length_append,
      encodeView_length, ih, List.length_cons]
    ring

lemma save_to_cache_length (db : PackageDatabase) (ts : Nat) :
    (save_to_cache db ts).length = 52 + db.arena.length + 20 * db.packages.length := by
  simp only [save_to_cache, List.length_append, encodeHeader, encodeByteSeq,
    encodeViews, u32le, u64le, List.length_cons, List.length_nil, List.length_map,
    encodeViews_flatten_length]
  ring

/-- Any cut of the post-header part of a saved file (length-prefixed arena
bytes followed by the view table) fails to parse: either the byte sequence
itself or the view table falls short. -/
lemma tail_truncated (arenaCh : List Char) (pkgs : List PackageView) (m : Nat)
    (hA : arenaCh.length < 18446744073709551616)
    (hP : pkgs.length < 18446744073709551616)
    (hm : m < 16 + arenaCh.length + 20 * pkgs.length) :
    parseByteSeq ((encodeByteSeq (arenaCh.map Char.toNat) ++ encodeViews pkgs).take m)
        = none ∨
      ∃ ab rest2,
        parseByteSeq ((encodeByteSeq (arenaCh.map Char.toNat) ++ encodeViews pkgs).take m)
            = some (ab, rest2) ∧
          parseViews rest2 = none := by
  have hVlen : (encodeViews pkgs).length = 8 + 20 * pkgs.length := by
    rw [encodeViews, List.length_append, encodeViews_flatten_length]
    simp only [u64le, List.length_cons, List.length_nil]
  have hBlen : (encodeByteSeq (arenaCh.map Char.toNat)).length = 8 + arenaCh.length := by
    rw [encodeByteSeq, List.length_append, List.length_map]
    simp only [u64le, List.length_cons, List.length_nil]
  by_cases hm8 : m < 8
  · left
    have hshort : (((encodeByteSeq (arenaCh.map Char.toNat)) ++ encodeViews pkgs).take m).length < 8 := by
      simp only [List.length_take]
      omega
    rw [parseByteSeq, parseU64_none hshort]
    rfl
  · push_neg at hm8
    obtain ⟨j, rfl⟩ : ∃ j, m = 8 + j := ⟨m - 8, by omega⟩
    have hLm : (arenaCh.map Char.toNat).length = arenaCh.length := by simp
    have h8 : (u64le (arenaCh.map Char.toNat).length).length = 8 := by simp [u64le]
    have e1 : ((encodeByteSeq (arenaCh.map Char.toNat)) ++ encodeViews pkgs).take (8 + j)
        = u64le (arenaCh.map Char.toNat).length
            ++ ((arenaCh.map Char.toNat) ++ encodeViews pkgs).take j := by
      rw [encodeByteSeq, List.append_assoc, ← h8]
      exact List.take_append _
    rw [e1, parseByteSeq, parseU64_u64le]
    simp only [Option.bind_eq_bind, Option.some_bind, hLm]
    rw [Nat.mod_eq_of_lt hA]
    have hjlen : (((arenaCh.map Char.toNat) ++ encodeViews pkgs).take j).length = j := by
      simp only [List.length_take, List.length_append, hLm, hVlen]
      omega
    by_cases hjA : j < arenaCh.length
    · left
      have hne : ¬ arenaCh.length ≤ (((arenaCh.map Char.toNat) ++ encodeViews pkgs).take j).length := by
        rw [hjlen]; omega
      rw [if_neg hne]
    · push_neg at hjA
      obtain ⟨i, rfl⟩ : ∃ i, j = arenaCh.length + i := ⟨j - arenaCh.length, by omega⟩
      have e2 : ((arenaCh.map Char.toNat) ++ encodeViews pkgs).take (arenaCh.length + i)
          = (arenaCh.map Char.toNat) ++ (encodeViews pkgs).take i := by
        rw [← hLm]
        exact List.take_append _
      have hle : arenaCh.length ≤ ((arenaCh.map Char.toNat) ++ (encodeViews pkgs).take i).length := by
        simp only [List.length_append, hLm]
        omega
      rw [e2, if_pos hle]
      have e3 : ((arenaCh.map Char.toNat) ++ (encodeViews pkgs).take i).take arenaCh.length
          = arenaCh.map Char.toNat := by
        rw [← hLm]; exact List.take_left _ _
      have e4 : ((arenaCh.map Char.toNat) ++ (encodeViews pkgs).take i).drop arenaCh.length
          = (encodeViews pkgs).take i := by
        rw [← hLm]; exact List.drop_left _ _
      rw [e3, e4]
      right
      refine ⟨_, _, rfl, ?_⟩
      have hi : i < 8 + 20 * pkgs.length := by omega
      by_cases hi8 : i < 8
      · have hshort2 : ((encodeViews pkgs).take i).length < 8 := by
          simp only [List.length_take]
          omega
        rw [parseViews, parseU64_none hshort2]
        rfl
      · push_neg at hi8
        obtain ⟨r, rfl⟩ : ∃ r, i = 8 + r := ⟨i - 8, by omega⟩
        have h8P : (u64le pkgs.length).length = 8 := by simp [u64le]
        have e5 : (encodeViews pkgs).take (8 + r)
            = u64le pkgs.length ++ ((pkgs.map encodeView).flatten).take r := by
          rw [encodeViews, ← h8P]
          exact List.take_append _
        have hshort3 : (((pkgs.map encodeView).flatten).take r).length < 20 * pkgs.length := by
          simp only [List.length_take, encodeViews_flatten_length]
          omega
        rw [e5, parseViews, parseU64_u64le, Nat.mod_eq_of_lt hP]
        simp only [Option.bind_eq_bind, Option.some_bind]
        exact parseViewList_none pkgs.length hshort3

/-- Loading any strict prefix of a saved cache file misses. -/
lemma load_truncated (db : PackageDatabase) (ts : Nat) (k : Nat)
    (hA : db.arena.length < 18446744073709551616)
    (hP : db.packages.length < 18446744073709551616)
    (hk : k < (save_to_cache db ts).length) :
    load_from_cache (some ((save_to_cache db ts).take k)) = none := by
  by_cases hk1 : k < 36
  · have hlen : ((save_to_cache db ts).take k).length < 36 := by
      simp only [List.length_take]; omega
    simp only [load_from_cache, parseHeader_none hlen]
    rfl
  · push_neg at hk1
    obtain ⟨m, rfl⟩ : ∃ m, k = 36 + m := ⟨k - 36, by omega⟩
    have hHlen : (encodeHeader ⟨CACHE_VERSION, db.stats.official_count,
        db.stats.aur_count, db.arena.length, ts⟩).length = 36 := by
      simp [encodeHeader, u32le, u64le]
    have e1 : (save_to_cache db ts).take (36 + m)
        = encodeHeader ⟨CACHE_VERSION, db.stats.official_count, db.stats.aur_count,
            db.arena.length, ts⟩
          ++ ((encodeByteSeq (db.arena.map Char.toNat)) ++ encodeViews db.packages).take m := by
      rw [save_to_cache, List.append_assoc, ← hHlen]
      exact List.take_append _
    rw [e1]
    simp only [load_from_cache, List.append_assoc, parseHeader_encodeHeader,
      Option.bind_eq_bind, Option.some_bind]
    rw [if_neg (by decide)]
    have hm : m < 16 + db.arena.length + 20 * db.packages.length := by
      rw [save_to_cache_length] at hk; omega
    rcases tail_truncated db.arena db.packages m hA hP hm with h | ⟨ab, rest2, hsome, hviews⟩
    · rw [h]; rfl
    · rw [hsome]
      simp only [Option.some_bind]
      rw [hviews]
      rfl

/-- A file starting with a header whose version field differs from
`CACHE_VERSION` misses, regardless of the bytes after the header. -/
lemma load_version_mismatch (v oc ac al ts : Nat) (rest : List Nat)
    (hv : v < 4294967296) (hne : v ≠ CACHE_VERSION) :
    load_from_cache (some (encodeHeader ⟨v, oc, ac, al, ts⟩ ++ rest)) = none := by
  simp only [load_from_cache, parseHeader_encodeHeader, Option.bind_eq_bind,
    Option.some_bind]
  rw [if_pos (by simpa [Nat.mod_eq_of_lt hv] using hne)]

/-- C7: the loader returns a miss (`none`) — it is a total function, never
an error — for an absent/unreadable file, for any file shorter than a
header, for any file whose header version differs from `CACHE_VERSION`
regardless of the following bytes, and for any strict prefix (truncation)
of a saved file. -/
theorem load_miss_on_bad_file :
    load_from_cache none = none ∧
    (∀ bs : List Nat, bs.length < 36 → load_from_cache (some bs) = none) ∧
    (∀ v oc ac al ts : Nat, ∀ rest : List Nat, v < 4294967296 → v ≠ CACHE_VERSION →
      load_from_cache (some (encodeHeader ⟨v, oc, ac, al, ts⟩ ++ rest)) = none) ∧
    (∀ db : PackageDatabase, ∀ ts k : Nat,
      db.arena.length < 18446744073709551616 →
      db.packages.length < 18446744073709551616 →
      k < (save_to_cache db ts).length →
      load_from_cache (some ((save_to_cache db ts).take k)) = none) := by
  refine ⟨rfl, fun bs hbs => ?_, fun v oc ac al ts rest hv hne => ?_,
    fun db ts k hA hP hk => ?_⟩
  · simp only [load_from_cache, parseHeader_none hbs]
    rfl
  · exact load_version_mismatch v oc ac al ts rest hv hne
  · exact load_truncated db ts k hA hP hk

set_option maxRecDepth 8192 in
/-- C7 witness: a stale version-2 header followed by arbitrary bytes, and a
50-byte truncation of the sample store's saved file, both miss. -/
theorem load_miss_on_bad_file_witness :
    load_from_cache (some (encodeHeader ⟨2, 0, 0, 0, 0⟩ ++ [7, 7, 7])) = none ∧
    load_from_cache (some ((save_to_cache sampleDb 0).take 50)) = none :=
  ⟨load_miss_on_bad_file.2.2.1 2 0 0 0 0 [7, 7, 7] (by decide) (by decide),
   load_miss_on_bad_file.2.2.2 sampleDb 0 50 (by decide) (by decide) (by decide)⟩

/-! ### Fresh-build invariants -/

lemma splitOnNl_no_delim : ∀ (s : List Char), ∀ t ∈ splitOnNl s, '\n' ∉ t := by
  intro s
  induction s with
  | nil =>
    intro t ht
    simp only [splitOnNl, List.mem_singleton] at ht
    subst ht
    simp
  | cons c rest ih =>
    intro t ht
    simp only [splitOnNl] at ht
    by_cases hc : c = '\n'
    · rw [if_pos hc] at ht
      rcases List.mem_cons.mp ht with h | h
      · subst h; simp
      · exact ih t h
    · rw [if_neg hc] at ht
      cases hsegs : splitOnNl rest with
      | nil =>
        rw [hsegs] at ht
        simp only [List.mem_singleton] at ht
        subst ht
        intro hmem
        simp only [List.mem_singleton] at hmem
        exact hc hmem.symm
      | cons s0 ss =>
        rw [hsegs] at ht
        rcases List.mem_cons.mp ht with h | h
        · subst h
          intro hmem
          rcases List.mem_cons.mp hmem with h1 | h1
          · exact hc h1.symm
          · exact ih s0 (hsegs ▸ List.mem_cons_self _ _) h1
        · exact ih t (hsegs ▸ List.mem_cons_of_mem _ h)

lemma stripTrailingCr_subset {t : List Char} {c : Char}
    (h : c ∈ stripTrailingCr t) : c ∈ t := by
  unfold stripTrailingCr at h
  split at h
  · exact List.dropLast_subset _ h
  · exact h

lemma rustLines_no_delim (s : List Char) : ∀ t ∈ rustLines s, '\n' ∉ t := by
  intro t ht hmem
  simp only [rustLines] at ht
  obtain ⟨u, hu, rfl⟩ := List.mem_map.mp ht
  have hu' : u ∈ splitOnNl s := by
    split at hu
    · exact List.dropLast_subset _ hu
    · exact hu
  exact splitOnNl_no_delim s u hu' (stripTrailingCr_subset hmem)

/-- Extending the arena on the right preserves the view invariant. -/
lemma viewWithin_append (arena ext : List Char) (v : PackageView)
    (h : viewWithin arena v) : viewWithin (arena ++ ext) v := by
  obtain ⟨h1, h2, h3⟩ := h
  refine ⟨h1, by simp only [List.length_append]; omega, ?_⟩
  simp only [PackageView.name] at h3 ⊢
  rw [List.take_append_of_le_length h2]
  exact h3

/-- The view pushed for a freshly appended line resolves to that line. -/
lemma name_of_appended (arena line : List Char) (src : PackageSource) :
    (PackageView.mk arena.length (arena ++ line).length src).name
        ((arena ++ line) ++ ['\n']) = line := by
  simp only [PackageView.name]
  rw [List.take_append_of_le_length (le_refl _), List.take_length, List.drop_left]

lemma buildPart_within (src : PackageSource) :
    ∀ (lines : List (List Char)) (arena : List Char) (pkgs : List PackageView) (cnt : Nat),
      (∀ v ∈ pkgs, viewWithin arena v) →
      (∀ l ∈ lines, '\n' ∉ l) →
      ∀ v ∈ (buildPart src lines (arena, pkgs, cnt)).2.1,
        viewWithin (buildPart src lines (arena, pkgs, cnt)).1 v := by
  intro lines
  induction lines with
  | nil =>
    intro arena pkgs cnt hinv _ v hv
    exact hinv v hv
  | cons line rest ih =>
    intro arena pkgs cnt hinv hlines
    by_cases hemp : line.isEmpty
    · rw [buildPart, if_pos hemp]
      exact ih arena pkgs cnt hinv (fun l hl => hlines l (List.mem_cons_of_mem _ hl))
    · rw [buildPart, if_neg hemp]
      refine ih _ _ _ ?_ (fun l hl => hlines l (List.mem_cons_of_mem _ hl))
      intro v hv
      rcases List.mem_append.mp hv with hold | hnew
      · exact viewWithin_append _ _ _ (viewWithin_append _ _ _ (hinv v hold))
      · rw [List.mem_singleton] at hnew
        subst hnew
        refine ⟨by simp, by simp, ?_⟩
        rw [name_of_appended]
        exact hlines line (List.mem_cons_self _ _)

/-- C3's positive half for fresh builds: every view of a freshly built store
satisfies the invariant, whatever the external commands returned. -/
lemma build_fresh_within (pacman paru yay aurRun : Option CmdOut) :
    ∀ v ∈ (build_fresh pacman paru yay aurRun).packages,
      viewWithin (build_fresh pacman paru yay aurRun).arena v := by
  unfold build_fresh
  have hst1 : ∀ (st1 : List Char × List PackageView × Nat),
      (∀ v ∈ st1.2.1, viewWithin st1.1 v) →
      ∀ v ∈ (if probeOk paru || probeOk yay then
              match aurRun with
              | some o =>
                if o.success then buildPart .Aur (rustLines o.stdout) (st1.1, st1.2.1, 0)
                else (st1.1, st1.2.1, 0)
              | none => (st1.1, st1.2.1, 0)
            else (st1.1, st1.2.1, 0)).2.1,
        viewWithin (if probeOk paru || probeOk yay then
              match aurRun with
              | some o =>
                if o.success then buildPart .Aur (rustLines o.stdout) (st1.1, st1.2.1, 0)
                else (st1.1, st1.2.1, 0)
              | none => (st1.1, st1.2.1, 0)
            else (st1.1, st1.2.1, 0)).1 v := by
    intro st1 h1
    by_cases hh : probeOk paru || probeOk yay
    · rw [if_pos hh]
      rcases aurRun with _ | o
      · exact h1
      · dsimp only
        by_cases hs : o.success
        · rw [if_pos hs]
          exact buildPart_within .Aur (rustLines o.stdout) st1.1 st1.2.1 0 h1
            (rustLines_no_delim o.stdout)
        · rw [if_neg hs]
          exact h1
    · rw [if_neg hh]
      exact h1
  rcases pacman with _ | o1
  · exact hst1 ([], [], 0) (by simp)
  · by_cases hs1 : o1.success
    · dsimp only
      rw [if_pos hs1]
      exact hst1 _ (buildPart_within .Official (rustLines o1.stdout) [] [] 0
        (by simp) (rustLines_no_delim o1.stdout))
    · dsimp only
      rw [if_neg hs1]
      exact hst1 ([], [], 0) (by simp)


/-- C3 counterexample: a well-formed cache file (valid header, version 1)
whose view offsets exceed the arena loads successfully into a store whose
view violates the invariant — `load_from_cache` performs no bounds check. -/
theorem load_unvalidated_view_cex :
    load_from_cache (some badCacheBytes) =
      some { arena := ['a', 'b'], packages := [⟨0, 5, .Official⟩],
             stats := ⟨0, 0, 2, 0, true⟩ } ∧
    ¬ viewWithin ['a', 'b'] ⟨0, 5, .Official⟩ := by
  constructor
  · decide
  · decide

/-- C3 (amended): the view invariant holds for every freshly built store,
and for every store loaded from a cache file that `save_to_cache` wrote from
a store satisfying the invariant; an arbitrary successful load does not
guarantee it. -/
theorem view_invariant_built_or_roundtripped (pacman paru yay aurRun : Option CmdOut)
    (db : PackageDatabase) (ts : Nat)
    (hdb : ∀ v ∈ db.packages, viewWithin db.arena v)
    (hO : db.stats.official_count < 18446744073709551616)
    (hAc : db.stats.aur_count < 18446744073709551616)
    (hA : db.arena.length < 18446744073709551616)
    (hP : db.packages.length < 18446744073709551616)
    (hV : ∀ v ∈ db.packages, v.name_start < 18446744073709551616 ∧
        v.name_end < 18446744073709551616) :
    (∀ v ∈ (build_fresh pacman paru yay aurRun).packages,
        viewWithin (build_fresh pacman paru yay aurRun).arena v) ∧
    (∀ db', load_from_cache (some (save_to_cache db ts)) = some db' →
        ∀ v ∈ db'.packages, viewWithin db'.arena v) := by
  refine ⟨build_fresh_within pacman paru yay aurRun, fun db' hload v hv => ?_⟩
  rw [load_save_eq db ts hO hAc hA hP hV] at hload
  cases Option.some.inj hload
  exact hdb v hv

set_option maxRecDepth 8192 in
/-- C3 witness: the invariant for a concrete fresh build and for the store
reloaded from the sample store's saved file. -/
theorem view_invariant_built_or_roundtripped_witness :
    (∀ v ∈ (build_fresh pacmanOneName none none none).packages,
        viewWithin (build_fresh pacmanOneName none none none).arena v) ∧
    (∀ db', load_from_cache (some (save_to_cache sampleDb 7)) = some db' →
        ∀ v ∈ db'.packages, viewWithin db'.arena v) :=
  view_invariant_built_or_roundtripped pacmanOneName none none none sampleDb 7
    (by decide) (by decide) (by decide) (by decide) (by decide) (by decide)

/-- C5 (code bug): on the fresh-build path of `load_or_build`, the stats are
not recomputed from the built store — `arena_bytes` stays 0 (the source
comments "Will be set after", but nothing sets it) although the arena is
nonempty. -/
theorem fresh_build_arena_bytes_stays_zero :
    (load_or_build none pacmanOneName none none none 0).1.stats.arena_bytes = 0 ∧
    (load_or_build none pacmanOneName none none none 0).1.arena.length = 2 := by
  constructor
  · decide
  · decide

/-! ### Official-source failure (C6) -/

/-- The official query failed: command error or non-zero status. -/
def officialFailed : Option CmdOut → Bool
  | some o => !o.success
  | none => true

lemma buildPart_sources (src : PackageSource) :
    ∀ (lines : List (List Char)) (arena : List Char) (pkgs : List PackageView) (cnt : Nat),
      ∀ v ∈ (buildPart src lines (arena, pkgs, cnt)).2.1, v ∈ pkgs ∨ v.source = src := by
  intro lines
  induction lines with
  | nil =>
    intro arena pkgs cnt v hv
    exact Or.inl hv
  | cons line rest ih =>
    intro arena pkgs cnt v hv
    by_cases hemp : line.isEmpty
    · rw [buildPart, if_pos hemp] at hv
      exact ih arena pkgs cnt v hv
    · rw [buildPart, if_neg hemp] at hv
      rcases ih _ _ _ v hv with hmem | hsrc
      · rcases List.mem_append.mp hmem with hold | hnew
        · exact Or.inl hold
        · rw [List.mem_singleton] at hnew
          subst hnew
          exact Or.inr rfl
      · exact Or.inr hsrc

/-- C6 counterexample: official source fails, but an AUR helper is present
and succeeds with one name — the built catalog is not empty and
`aur_count = 1`, contradicting "empty catalog with both counts 0". -/
theorem official_failure_nonempty_cex :
    ¬ ((build_fresh pacmanFailing paruProbeOk none aurOneName).len = 0 ∧
       (build_fresh pacmanFailing paruProbeOk none aurOneName).stats.official_count = 0 ∧
       (build_fresh pacmanFailing paruProbeOk none aurOneName).stats.aur_count = 0) := by
  decide

/-- When the official query fails, the build behaves as if `pacman` were
absent. -/
lemma build_fresh_official_failed (pacman paru yay aurRun : Option CmdOut)
    (hfail : officialFailed pacman = true) :
    build_fresh pacman paru yay aurRun = build_fresh none paru yay aurRun := by
  rcases pacman with _ | o
  · rfl
  · have hs : o.success = false := by
      simpa only [officialFailed, Bool.not_eq_true'] using hfail
    unfold build_fresh
    dsimp only
    rw [if_neg (show ¬ (o.success = true) by simp [hs])]

lemma build_fresh_none_sources (paru yay aurRun : Option CmdOut) :
    ∀ v ∈ (build_fresh none paru yay aurRun).packages, v.source = PackageSource.Aur := by
  unfold build_fresh
  dsimp only
  by_cases hh : probeOk paru || probeOk yay
  · rw [if_pos hh]
    rcases aurRun with _ | o
    · intro v hv
      simp at hv
    · dsimp only
      by_cases hs : o.success
      · rw [if_pos hs]
        intro v hv
        rcases buildPart_sources .Aur (rustLines o.stdout) [] [] 0 v hv with h | h
        · simp at h
        · exact h
      · rw [if_neg hs]
        intro v hv
        simp at hv
  · rw [if_neg hh]
    intro v hv
    simp at hv

lemma build_fresh_none_no_helper (paru yay aurRun : Option CmdOut)
    (hp : probeOk paru = false) (hy : probeOk yay = false) :
    (build_fresh none paru yay aurRun).packages = [] ∧
    (build_fresh none paru yay aurRun).stats.aur_count = 0 := by
  unfold build_fresh
  dsimp only
  rw [if_neg (by simp [hp, hy])]
  exact ⟨rfl, rfl⟩

/-- C6 (amended): when the official query fails, the build degrades but does
not error: `official_count = 0`, every view is AUR-tagged, and if
additionally no AUR helper probe succeeds, the catalog is empty with both
counts 0. -/
theorem official_failure_degrades (pacman paru yay aurRun : Option CmdOut)
    (hfail : officialFailed pacman = true) :
    (build_fresh pacman paru yay aurRun).stats.official_count = 0 ∧
    (∀ v ∈ (build_fresh pacman paru yay aurRun).packages, v.source = PackageSource.Aur) ∧
    (probeOk paru = false → probeOk yay = false →
      (build_fresh pacman paru yay aurRun).packages = [] ∧
      (build_fresh pacman paru yay aurRun).stats.aur_count = 0) := by
  rw [build_fresh_official_failed pacman paru yay aurRun hfail]
  exact ⟨rfl, build_fresh_none_sources paru yay aurRun,
    fun hp hy => build_fresh_none_no_helper paru yay aurRun hp hy⟩

/-- C6 witness: failing official source with a successful helper — no
official entries, every view AUR-tagged. -/
theorem official_failure_degrades_witness :
    (build_fresh pacmanFailing paruProbeOk none aurOneName).stats.official_count = 0 ∧
    (∀ v ∈ (build_fresh pacmanFailing paruProbeOk none aurOneName).packages,
        v.source = PackageSource.Aur) ∧
    (probeOk paruProbeOk = false → probeOk none = false →
      (build_fresh pacmanFailing paruProbeOk none aurOneName).packages = [] ∧
      (build_fresh pacmanFailing paruProbeOk none aurOneName).stats.aur_count = 0) :=
  official_failure_degrades pacmanFailing paruProbeOk none aurOneName (by decide)

/-- C9: `invalidate_cache` always removes the file (a no-op when it is
already absent), reports success either way, and a second call has the same
effect and outcome as the first. -/
theorem invalidate_cache_idempotent (file : Option (List Nat)) :
    (invalidate_cache file).1 = none ∧
    (invalidate_cache file).2 = true ∧
    invalidate_cache ((invalidate_cache file).1) = invalidate_cache file := by
  cases file <;> exact ⟨rfl, rfl, rfl⟩

end TerraStore
